import Mathlib

/-
Shallow embedding of the cooperative futures runtime (assign7: future.rs,
executor.rs, asyncio.rs).

Modelling conventions:
- A future implementation is a state type `σ` together with a step function
  `σ → Option (Poll T × σ)`.  `some (p, s')` means the poll returned `p` and
  left the future in state `s'`; `none` means the poll panicked (e.g. an
  `unwrap` of `None`, or an explicit "poll called after future completed"
  panic).  Panics propagate: a combinator whose child poll is `none` is
  itself `none`.
- One-shot closures (`FnOnce`) are modelled as `Option`-wrapped Lean
  functions, exactly as the source stores them (`fun: Option<Fun>`), so
  consuming the closure is visible as the field becoming `none`.
- Loops that busy-wait are modelled with explicit fuel; running out of fuel
  is a distinct outcome from panicking or finishing.
-/

namespace Assign7

/-- Poll<T> from future.rs: the two-variant outcome of one poll attempt. -/
inductive Poll (T : Type) where
  | Ready : T → Poll T
  | NotReady : Poll T
deriving DecidableEq, Repr

/-- The shape of a future's poll step: state in, panic or (result, state) out. -/
abbrev PollFn (σ T : Type) : Type := σ → Option (Poll T × σ)

/-! Immediate (future.rs lines 25-49): container with field `t: Option<T>`. -/

structure Immediate (T : Type) where
  t : Option T

/-- Constructor `immediate` from future.rs. -/
def immediate {T : Type} (t : T) : Immediate T := ⟨some t⟩

/-- Immediate::poll: `Poll::Ready(self.t.take().unwrap())`.  Taking moves the
value out (field becomes `none`); on a second poll the `unwrap` of `None`
panics, modelled as `none`. -/
def Immediate.poll {T : Type} : Immediate T → Option (Poll T × Immediate T)
  | ⟨some x⟩ => some (Poll.Ready x, ⟨none⟩)
  | ⟨none⟩ => none

/-! Map (future.rs lines 56-90): child future plus one-shot transform. -/

structure Map (σ A B : Type) where
  fut : σ
  fn : Option (A → B)

/-- Constructor `map` from future.rs. -/
def map {σ A B : Type} (fut : σ) (f : A → B) : Map σ A B := ⟨fut, some f⟩

/-- Map::poll: poll the child; on `NotReady` propagate; on `Ready(s)` take the
stored transform and apply it (`self.fun.take()`, then `unwrap`, which
panics if the transform was already consumed). -/
def Map.poll {σ A B : Type} (pollFut : PollFn σ A) (m : Map σ A B) :
    Option (Poll B × Map σ A B) :=
  match pollFut m.fut with
  | none => none
  | some (Poll.NotReady, fut') => some (Poll.NotReady, ⟨fut', m.fn⟩)
  | some (Poll.Ready s, fut') =>
    match m.fn with
    | none => none
    | some f => some (Poll.Ready (f s), ⟨fut', none⟩)

/-! Join (future.rs lines 98-160): four-state machine over two children. -/

inductive Join (σf σg A B : Type) where
  | BothRunning : σf → σg → Join σf σg A B
  | FirstDone : A → σg → Join σf σg A B
  | SecondDone : σf → B → Join σf σg A B
  | Done : Join σf σg A B

/-- Constructor `join` from future.rs: start with both children running. -/
def join {σf σg A B : Type} (f : σf) (g : σg) : Join σf σg A B :=
  Join.BothRunning f g

/-- Join::poll, translated arm by arm from the `take_mut::take` closure:
`FirstDone` polls only `g`; `SecondDone` polls only `f`; `BothRunning`
polls both; `Done` panics ("poll called after future completed"). -/
def Join.poll {σf σg A B : Type} (pollF : PollFn σf A) (pollG : PollFn σg B) :
    Join σf σg A B → Option (Poll (A × B) × Join σf σg A B)
  | Join.FirstDone fItem g =>
    match pollG g with
    | none => none
    | some (Poll.Ready gItem, _) => some (Poll.Ready (fItem, gItem), Join.Done)
    | some (Poll.NotReady, g') => some (Poll.NotReady, Join.FirstDone fItem g')
  | Join.SecondDone f gItem =>
    match pollF f with
    | none => none
    | some (Poll.Ready fItem, _) => some (Poll.Ready (fItem, gItem), Join.Done)
    | some (Poll.NotReady, f') => some (Poll.NotReady, Join.SecondDone f' gItem)
  | Join.BothRunning f g =>
    match pollF f, pollG g with
    | none, _ => none
    | some _, none => none
    | some (Poll.Ready fItem, _), some (Poll.Ready gItem, _) =>
      some (Poll.Ready (fItem, gItem), Join.Done)
    | some (Poll.Ready fItem, _), some (Poll.NotReady, g') =>
      some (Poll.NotReady, Join.FirstDone fItem g')
    | some (Poll.NotReady, f'), some (Poll.Ready gItem, _) =>
      some (Poll.NotReady, Join.SecondDone f' gItem)
    | some (Poll.NotReady, f'), some (Poll.NotReady, g') =>
      some (Poll.NotReady, Join.BothRunning f' g')
  | Join.Done => none

/-! AndThen (future.rs lines 167-224): three-state machine.  The stored
continuation has type `A → σ2`: given the first future's item it produces
the second future's initial state. -/

inductive AndThen (σ1 σ2 A : Type) where
  | First : σ1 → (A → σ2) → AndThen σ1 σ2 A
  | Second : σ2 → AndThen σ1 σ2 A
  | Done : AndThen σ1 σ2 A

/-- Constructor `and_then` from future.rs. -/
def and_then {σ1 σ2 A : Type} (fut : σ1) (f : A → σ2) : AndThen σ1 σ2 A :=
  AndThen.First fut f

/-- AndThen::poll, translated arm by arm from the `take_mut::take` closure.
Note the `First`/`Ready` arm of the source: it polls the freshly built
second future and then returns `AndThen::Done` as the new state
unconditionally — also when that inner poll returned `NotReady` (the
closure's value is `AndThen::Done` on both paths of `poll_result`). -/
def AndThen.poll {σ1 σ2 A B : Type} (poll1 : PollFn σ1 A) (poll2 : PollFn σ2 B) :
    AndThen σ1 σ2 A → Option (Poll B × AndThen σ1 σ2 A)
  | AndThen.First first f =>
    match poll1 first with
    | none => none
    | some (Poll.Ready item, _) =>
      match poll2 (f item) with
      | none => none
      | some (res, _) => some (res, AndThen.Done)
    | some (Poll.NotReady, first') => some (Poll.NotReady, AndThen.First first' f)
  | AndThen.Second second =>
    match poll2 second with
    | none => none
    | some (Poll.Ready item, _) => some (Poll.Ready item, AndThen.Done)
    | some (Poll.NotReady, second') => some (Poll.NotReady, AndThen.Second second')
  | AndThen.Done => none

/-! A contract-respecting test future used to exercise the model: state
`some n` needs `n` more NotReady polls before the poll after that returns
Ready; state `none` is "already completed", where polling panics. -/

def countdownPoll : PollFn (Option Nat) Unit
  | some (n + 1) => some (Poll.NotReady, some n)
  | some 0 => some (Poll.Ready (), none)
  | none => none

/-! Executors (executor.rs).  All futures an executor drives yield `()`,
so an executor over future-state type `σ` is driven by one `PollFn σ Unit`
(a heterogeneous set of boxed futures is obtained by instantiating `σ`
with a sum type). -/

/-- Outcome of a fuel-bounded executor loop: the loop panicked, ran out of
fuel while still busy-waiting, or returned.  `finished` carries the value
of `self.futures` at the moment the source calls `clear()` on it. -/
inductive ExecOutcome (σ : Type) where
  | panicked : ExecOutcome σ
  | timeout : ExecOutcome σ
  | finished : List σ → ExecOutcome σ
deriving DecidableEq, Repr

/-- BlockingExecutor (executor.rs lines 25-46) has no state. -/
structure BlockingExecutor where

/-- BlockingExecutor::spawn: `loop { if let Poll::Ready(()) = f.poll() { break } }`,
fuel-bounded.  `some true` means the loop broke after a Ready poll; `some
false` means the fuel ran out with the loop still spinning; `none` means a
poll panicked. -/
def BlockingExecutor.spawnLoop {σ : Type} (pollF : PollFn σ Unit) :
    Nat → σ → Option Bool
  | 0, _ => some false
  | fuel + 1, s =>
    match pollF s with
    | none => none
    | some (Poll.Ready _, _) => some true
    | some (Poll.NotReady, s') => BlockingExecutor.spawnLoop pollF fuel s'

/-- BlockingExecutor::wait: the body is empty. -/
def BlockingExecutor.wait (e : BlockingExecutor) : BlockingExecutor := e

/-- State after `n` consecutive NotReady polls of a future: `none` when some
poll among the first `n` panicked or returned Ready. -/
def pollsTo {σ : Type} (pollF : PollFn σ Unit) : Nat → σ → Option σ
  | 0, s => some s
  | n + 1, s =>
    match pollF s with
    | some (Poll.NotReady, s') => pollsTo pollF n s'
    | _ => none

/-- SingleThreadExecutor (executor.rs lines 52-86): a pending list of
not-yet-finished futures. -/
structure SingleThreadExecutor (σ : Type) where
  futures : List σ
deriving DecidableEq, Repr

/-- SingleThreadExecutor::spawn: poll once; push (the post-poll state) only
on NotReady, discard on Ready.  `none` when that first poll panicked. -/
def SingleThreadExecutor.spawn {σ : Type} (pollF : PollFn σ Unit)
    (e : SingleThreadExecutor σ) (f : σ) : Option (SingleThreadExecutor σ) :=
  match pollF f with
  | none => none
  | some (Poll.NotReady, f') => some ⟨e.futures ++ [f']⟩
  | some (Poll.Ready _, _) => some e

/-- One pass of the `for (i, fut) in self.futures.iter_mut().enumerate()`
loop inside SingleThreadExecutor::wait: poll every entry in place, in
order, counting the Ready results; the entries are NOT removed.  `none`
when some poll panicked. -/
def waitPass {σ : Type} (pollF : PollFn σ Unit) :
    List σ → Option (List σ × Nat)
  | [] => some ([], 0)
  | s :: rest =>
    match pollF s with
    | none => none
    | some (p, s') =>
      match waitPass pollF rest with
      | none => none
      | some (rest', c) =>
        some (s' :: rest', (match p with | Poll.Ready _ => 1 | Poll.NotReady => 0) + c)

/-- The `while num_completed < n` loop of SingleThreadExecutor::wait,
fuel-bounded (fuel counts remaining passes): repeat passes over the
(never-shrinking) future list until the accumulated Ready count reaches
`n`, then report the list handed to `clear()`. -/
def waitLoop {σ : Type} (pollF : PollFn σ Unit) :
    Nat → List σ → Nat → Nat → ExecOutcome σ
  | 0, futs, num, n =>
    if num < n then ExecOutcome.timeout else ExecOutcome.finished futs
  | fuel + 1, futs, num, n =>
    if num < n then
      match waitPass pollF futs with
      | none => ExecOutcome.panicked
      | some (futs', c) => waitLoop pollF fuel futs' (num + c) n
    else ExecOutcome.finished futs

/-- SingleThreadExecutor::wait: `n = self.futures.len()`, `num_completed = 0`,
then the while loop, then `self.futures.clear()`. -/
def SingleThreadExecutor.waitOutcome {σ : Type} (pollF : PollFn σ Unit)
    (fuel : Nat) (e : SingleThreadExecutor σ) : ExecOutcome σ :=
  waitLoop pollF fuel e.futures 0 e.futures.length

/-! MultiThreadExecutor (executor.rs lines 88-158).  The mpsc channel is
modelled as the list of messages sent so far, in send order; a message is
`Option σ` exactly as in the source (`Some(boxed future)` or the `None`
shutdown sentinel).  `threads` counts the join handles held in
`self.threads`; `workers` counts worker threads still running.  The single
`Receiver` lives inside an `Arc` whose only clones are held by the worker
closures, so the channel is closed (senders start failing) exactly when
every worker has exited, i.e. when `workers = 0`. -/

structure MultiThreadExecutor (σ : Type) where
  queue : List (Option σ)
  threads : Nat
  workers : Nat

/-- MultiThreadExecutor::new(n): empty channel, `n` worker threads spawned,
all running. -/
def MultiThreadExecutor.new (σ : Type) (n : Nat) : MultiThreadExecutor σ :=
  ⟨[], n, n⟩

/-- MultiThreadExecutor::spawn: `self.sender.send(Some(Box::new(f))).expect(..)`.
When every worker has exited the receiver has been dropped, the send
fails, and the `expect` panics (`none`); otherwise the message is enqueued. -/
def MultiThreadExecutor.spawn {σ : Type} (e : MultiThreadExecutor σ) (f : σ) :
    Option (MultiThreadExecutor σ) :=
  if e.workers = 0 then none
  else some { e with queue := e.queue ++ [some f] }

/-- MultiThreadExecutor::wait: send one `None` sentinel per entry of
`self.threads`, then `take_mut::take` the thread list, joining every handle
and leaving `Vec::new()`.  Each join returns only once that worker thread
has exited (a worker exits exactly when it dequeues a sentinel), so on
return the joined workers are no longer running. -/
def MultiThreadExecutor.wait {σ : Type} (e : MultiThreadExecutor σ) :
    MultiThreadExecutor σ :=
  { queue := e.queue ++ List.replicate e.threads none,
    threads := 0,
    workers := e.workers - e.threads }

/-- Outcome of one worker thread's loop (the closure in
MultiThreadExecutor::new): it panicked, its local wait ran out of fuel,
it consumed every message available to it and is blocked in `recv`, or it
dequeued the sentinel, drained its local executor and terminated.
`terminated` carries the local executor's future list at the moment the
local wait cleared it. -/
inductive WorkerOutcome (σ : Type) where
  | panicked : WorkerOutcome σ
  | timeout : WorkerOutcome σ
  | blocked : SingleThreadExecutor σ → WorkerOutcome σ
  | terminated : List σ → WorkerOutcome σ
deriving DecidableEq, Repr

/-- The worker loop from MultiThreadExecutor::new, run against `msgs`, the
sequence of messages this worker dequeues from the shared channel:
`Some(fut)` is handed to the local SingleThreadExecutor's spawn; `None`
makes the worker run the local wait and then break out of the loop. -/
def workerLoop {σ : Type} (pollF : PollFn σ Unit) (fuel : Nat)
    (localExec : SingleThreadExecutor σ) :
    List (Option σ) → WorkerOutcome σ
  | [] => WorkerOutcome.blocked localExec
  | some f :: rest =>
    match SingleThreadExecutor.spawn pollF localExec f with
    | none => WorkerOutcome.panicked
    | some localExec' => workerLoop pollF fuel localExec' rest
  | none :: _ =>
    match SingleThreadExecutor.waitOutcome pollF fuel localExec with
    | ExecOutcome.panicked => WorkerOutcome.panicked
    | ExecOutcome.timeout => WorkerOutcome.timeout
    | ExecOutcome.finished fin => WorkerOutcome.terminated fin

/-- Spawning a list of futures on a local SingleThreadExecutor, one after
the other, propagating panics. -/
def spawnAll {σ : Type} (pollF : PollFn σ Unit)
    (e : SingleThreadExecutor σ) : List σ → Option (SingleThreadExecutor σ)
  | [] => some e
  | f :: rest =>
    match SingleThreadExecutor.spawn pollF e f with
    | none => none
    | some e' => spawnAll pollF e' rest

/-! The Future contract (future.rs: "poll until ready exactly once, then
stop"), as ghost data on a poll function: a completion flag on states such
that a Ready poll moves a future into completed, polling a completed
future panics, and a NotReady poll leaves the future not completed. -/

structure Contract {σ : Type} (pollF : PollFn σ Unit) where
  done : σ → Bool
  poll_done : ∀ s, done s = true → pollF s = none
  poll_ready : ∀ s x s', pollF s = some (Poll.Ready x, s') → done s' = true
  poll_notready : ∀ s s', pollF s = some (Poll.NotReady, s') → done s' = false

/-- The countdown test future respects the Future contract, with `none`
(the post-Ready state) as its completed state. -/
def countdownContract : Contract countdownPoll where
  done s := s.isNone
  poll_done s h := by cases s <;> simp_all [countdownPoll]
  poll_ready s x s' h := by
    cases s with
    | none => simp [countdownPoll] at h
    | some n => cases n <;> simp_all [countdownPoll]
  poll_notready s s' h := by
    cases s with
    | none => simp [countdownPoll] at h
    | some n =>
      cases n with
      | zero => simp [countdownPoll] at h
      | succ m =>
        simp [countdownPoll] at h
        subst h
        simp

/-! FileReader (asyncio.rs).  The filesystem is a map from paths to
contents (`none` = no such file); `fs::read_to_string` wraps that as an
`io::Result<String>`, modelled as `Except String String`.  The worker
thread's completion flag is set asynchronously, so its observed value is
an input of each poll; the acquire/release pair on the flag makes the
worker's result (determined by path and filesystem) visible once the flag
reads true.  `thread` records whether a join handle is present
(`self.thread.is_some()`), and `spawns` is a ghost counter of how many
worker threads have been spawned. -/

def FileSystem : Type := String → Option String

/-- fs::read_to_string on the modelled filesystem: the file's contents as
success, or the failure value for a missing path. -/
def readToString (fs : FileSystem) (path : String) : Except String String :=
  match fs path with
  | some contents => Except.ok contents
  | none => Except.error "No such file or directory"

structure FileReader where
  path : String
  thread : Bool
  spawns : Nat

/-- FileReader::new: no worker yet, flag unset. -/
def FileReader.new (path : String) : FileReader := ⟨path, false, 0⟩

/-- FileReader::poll given the flag value `flagDone` the acquire load would
observe.  First branch (`self.thread.is_none()`): spawn the worker and
return NotReady without reading the flag.  Otherwise: NotReady while the
flag is unset; once it is set, take the handle and join, yielding the
worker's `io::Result` inside Ready.  `fs::read_to_string` never panics, so
the join cannot panic and no branch returns `none`. -/
def FileReader.poll (fs : FileSystem) (flagDone : Bool) (st : FileReader) :
    Option (Poll (Except String String) × FileReader) :=
  if st.thread = false then
    some (Poll.NotReady, { st with thread := true, spawns := st.spawns + 1 })
  else if flagDone = false then
    some (Poll.NotReady, st)
  else
    some (Poll.Ready (readToString fs st.path), { st with thread := false })

/-! Claim theorems. -/

/-- C1: the claim says that in the `First` state, when the first future is
Ready and the freshly built second future's poll returns NotReady, the
combinator transitions to `Second(future2)` so that a later poll targets
the second future.  The code instead transitions to `Done` on that path:
here the first future is `immediate 0`, the continuation yields a
countdown future needing two polls, the first call returns NotReady with
the combinator already in `Done` (dropping the second future), and the
next poll panics ("poll called after future completed"). -/
theorem c1_andthen_first_loses_second :
    AndThen.poll Immediate.poll countdownPoll
        (and_then (immediate 0) (fun _ => (some 1 : Option Nat)))
      = some (Poll.NotReady, AndThen.Done)
  ∧ AndThen.poll Immediate.poll countdownPoll
        (AndThen.Done : AndThen (Immediate Nat) (Option Nat) Nat) = none :=
  ⟨rfl, rfl⟩

/-- C4: Map propagates the child's NotReady unchanged; on Ready(y) it applies
the stored transform exactly once (the transform is consumed: the new
state's `fn` is `none`); a child panic propagates; and `map (immediate x) f`
polled once returns `Ready (f x)`. -/
theorem c4_map_poll {σ A B : Type} (pollFut : PollFn σ A) (s : σ) (f : A → B)
    (x : A) :
    (∀ s', pollFut s = some (Poll.NotReady, s') →
      Map.poll pollFut (map s f) = some (Poll.NotReady, ⟨s', some f⟩))
  ∧ (∀ y s', pollFut s = some (Poll.Ready y, s') →
      Map.poll pollFut (map s f) = some (Poll.Ready (f y), ⟨s', none⟩))
  ∧ (pollFut s = none → Map.poll pollFut (map s f) = none)
  ∧ Map.poll Immediate.poll (map (immediate x) f)
      = some (Poll.Ready (f x), ⟨⟨none⟩, none⟩) := by
  refine ⟨fun s' h => ?_, fun y s' h => ?_, fun h => ?_, rfl⟩ <;>
    simp [Map.poll, map, h]

/-- C4 witness: the theorem applied to a countdown child that is not yet
ready, discharging the NotReady hypothesis at a concrete input. -/
theorem c4_map_poll_witness :
    Map.poll countdownPoll (map (some 1) (fun _ : Unit => (7 : Nat)))
      = some (Poll.NotReady, ⟨some 0, some (fun _ => 7)⟩) :=
  (c4_map_poll countdownPoll (some 1) (fun _ => 7) ()).1 (some 0) rfl

/-- C6: polling after Ready is reported by panicking in the offending call:
the first poll of `immediate x` yields `Ready x` and empties the container,
a second poll panics (unwrap of None); polling Join or AndThen in the
`Done` state panics. -/
theorem c6_poll_after_ready_panics {T A B σ1 σ2 σf σg : Type} (x : T)
    (pollF : PollFn σf A) (pollG : PollFn σg B)
    (poll1 : PollFn σ1 A) (poll2 : PollFn σ2 B) :
    Immediate.poll (immediate x) = some (Poll.Ready x, (⟨none⟩ : Immediate T))
  ∧ Immediate.poll (⟨none⟩ : Immediate T) = none
  ∧ Join.poll pollF pollG (Join.Done : Join σf σg A B) = none
  ∧ AndThen.poll poll1 poll2 (AndThen.Done : AndThen σ1 σ2 A) = none :=
  ⟨rfl, rfl, rfl, rfl⟩

/-- Helper for C5: if a future needs exactly `k` NotReady polls before a
Ready poll, the blocking spawn loop breaks within `k + 1` iterations. -/
theorem spawnLoop_of_pollsTo {σ : Type} (pollF : PollFn σ Unit) :
    ∀ (k : Nat) (s s' s'' : σ) (x : Unit), pollsTo pollF k s = some s' →
      pollF s' = some (Poll.Ready x, s'') →
      BlockingExecutor.spawnLoop pollF (k + 1) s = some true := by
  intro k
  induction k with
  | zero =>
    intro s s' s'' x h1 h2
    simp [pollsTo] at h1
    subst h1
    simp [BlockingExecutor.spawnLoop, h2]
  | succ k ih =>
    intro s s' s'' x h1 h2
    cases hp : pollF s with
    | none => simp [pollsTo, hp] at h1
    | some pr =>
      obtain ⟨p, s0⟩ := pr
      cases p with
      | Ready y => simp [pollsTo, hp] at h1
      | NotReady =>
        simp only [pollsTo, hp] at h1
        simp only [BlockingExecutor.spawnLoop, hp]
        exact ih s0 s' s'' x h1 h2

/-- Helper for C5: the blocking spawn loop only reports success after some
poll of the future returned Ready. -/
theorem spawnLoop_ready_needs_ready {σ : Type} (pollF : PollFn σ Unit) :
    ∀ (fuel : Nat) (t : σ), BlockingExecutor.spawnLoop pollF fuel t = some true →
      ∃ j t', pollsTo pollF j t = some t' ∧
        ∃ y t'', pollF t' = some (Poll.Ready y, t'') := by
  intro fuel
  induction fuel with
  | zero => intro t h; simp [BlockingExecutor.spawnLoop] at h
  | succ fuel ih =>
    intro t h
    cases hp : pollF t with
    | none => simp [BlockingExecutor.spawnLoop, hp] at h
    | some pr =>
      obtain ⟨p, t0⟩ := pr
      cases p with
      | Ready y => exact ⟨0, t, rfl, y, t0, hp⟩
      | NotReady =>
        simp only [BlockingExecutor.spawnLoop, hp] at h
        obtain ⟨j, t', hj, y, t'', hy⟩ := ih t0 h
        exact ⟨j + 1, t', by simp [pollsTo, hp, hj], y, t'', hy⟩

/-- C5: the blocking executor's spawn busy-polls the future in the calling
thread and returns once a poll is Ready: a future completing after `k`
NotReady polls makes the loop break within `k + 1` iterations, the loop
reports success only after a Ready poll, and `wait` is a no-op. -/
theorem c5_blocking_executor {σ : Type} (pollF : PollFn σ Unit)
    (k : Nat) (s s' s'' : σ) (x : Unit)
    (h1 : pollsTo pollF k s = some s')
    (h2 : pollF s' = some (Poll.Ready x, s'')) :
    BlockingExecutor.spawnLoop pollF (k + 1) s = some true
  ∧ (∀ fuel t, BlockingExecutor.spawnLoop pollF fuel t = some true →
      ∃ j t', pollsTo pollF j t = some t' ∧
        ∃ y t'', pollF t' = some (Poll.Ready y, t''))
  ∧ ∀ e, BlockingExecutor.wait e = e :=
  ⟨spawnLoop_of_pollsTo pollF k s s' s'' x h1 h2,
   spawnLoop_ready_needs_ready pollF, fun _ => rfl⟩

/-- C5 witness: a countdown future needing two NotReady polls completes the
blocking spawn loop within three iterations. -/
theorem c5_blocking_executor_witness :
    BlockingExecutor.spawnLoop countdownPoll 3 (some 2) = some true
  ∧ BlockingExecutor.wait ⟨⟩ = ⟨⟩ :=
  have h := c5_blocking_executor countdownPoll 2 (some 2) (some 0) none () rfl rfl
  ⟨h.1, h.2.2 ⟨⟩⟩

/-- Helper for C3: a poll of Join yields a Ready pair exactly when the new
state is Done. -/
theorem join_ready_iff_done {σf σg A B : Type} (pollF : PollFn σf A)
    (pollG : PollFn σg B) :
    ∀ (s : Join σf σg A B) (r : Poll (A × B)) (s' : Join σf σg A B),
      Join.poll pollF pollG s = some (r, s') →
      ((∃ p, r = Poll.Ready p) ↔ s' = Join.Done) := by
  intro s r s' h
  cases s with
  | Done => simp [Join.poll] at h
  | FirstDone a0 g0 =>
    cases hg : pollG g0 with
    | none => simp [Join.poll, hg] at h
    | some pr =>
      obtain ⟨p, g1⟩ := pr
      cases p <;> simp [Join.poll, hg] at h <;>
        obtain ⟨h1, h2⟩ := h <;> subst h1 <;> subst h2 <;> simp
  | SecondDone f0 b0 =>
    cases hf : pollF f0 with
    | none => simp [Join.poll, hf] at h
    | some pr =>
      obtain ⟨p, f1⟩ := pr
      cases p <;> simp [Join.poll, hf] at h <;>
        obtain ⟨h1, h2⟩ := h <;> subst h1 <;> subst h2 <;> simp
  | BothRunning f0 g0 =>
    cases hf : pollF f0 with
    | none => simp [Join.poll, hf] at h
    | some prf =>
      obtain ⟨pf, f1⟩ := prf
      cases hg : pollG g0 with
      | none => cases pf <;> simp [Join.poll, hf, hg] at h
      | some prg =>
        obtain ⟨pg, g1⟩ := prg
        cases pf <;> cases pg <;> simp [Join.poll, hf, hg] at h <;>
          obtain ⟨h1, h2⟩ := h <;> subst h1 <;> subst h2 <;> simp

/-- C3: the Join combinator never polls a child again after that child
produced Ready.  In `FirstDone` the result does not depend on the first
child's poll function at all (it is never invoked), and symmetrically in
`SecondDone`; the retained value is kept unchanged while the other child
is still pending; and the combinator yields the pair and moves to `Done`
exactly when both values are available. -/
theorem c3_join_no_repoll {σf σg A B : Type}
    (pollF pollF' : PollFn σf A) (pollG pollG' : PollFn σg B)
    (a : A) (b : B) (f : σf) (g : σg) :
    (Join.poll pollF pollG (Join.FirstDone a g)
      = Join.poll pollF' pollG (Join.FirstDone a g))
  ∧ (Join.poll pollF pollG (Join.SecondDone f b)
      = Join.poll pollF pollG' (Join.SecondDone f b))
  ∧ (∀ r s', Join.poll pollF pollG (Join.FirstDone a g) = some (r, s') →
      (∀ p, r = Poll.Ready p → p.1 = a ∧ s' = Join.Done)
      ∧ (r = Poll.NotReady → ∃ g', s' = Join.FirstDone a g'))
  ∧ (∀ r s', Join.poll pollF pollG (Join.SecondDone f b) = some (r, s') →
      (∀ p, r = Poll.Ready p → p.2 = b ∧ s' = Join.Done)
      ∧ (r = Poll.NotReady → ∃ f', s' = Join.SecondDone f' b))
  ∧ (∀ s r s', Join.poll pollF pollG s = some (r, s') →
      ((∃ p, r = Poll.Ready p) ↔ s' = Join.Done)) := by
  refine ⟨rfl, rfl, ?_, ?_, join_ready_iff_done pollF pollG⟩
  · intro r s' h
    cases hg : pollG g with
    | none => simp [Join.poll, hg] at h
    | some pr =>
      obtain ⟨p, g1⟩ := pr
      cases p with
      | Ready gi =>
        simp [Join.poll, hg] at h
        obtain ⟨h1, h2⟩ := h
        subst h1; subst h2
        exact ⟨fun p hp => by cases hp; exact ⟨rfl, rfl⟩, fun hp => by cases hp⟩
      | NotReady =>
        simp [Join.poll, hg] at h
        obtain ⟨h1, h2⟩ := h
        subst h1; subst h2
        exact ⟨fun p hp => Poll.noConfusion hp, fun _ => ⟨g1, rfl⟩⟩
  · intro r s' h
    cases hf : pollF f with
    | none => simp [Join.poll, hf] at h
    | some pr =>
      obtain ⟨p, f1⟩ := pr
      cases p with
      | Ready fi =>
        simp [Join.poll, hf] at h
        obtain ⟨h1, h2⟩ := h
        subst h1; subst h2
        exact ⟨fun p hp => by cases hp; exact ⟨rfl, rfl⟩, fun hp => by cases hp⟩
      | NotReady =>
        simp [Join.poll, hf] at h
        obtain ⟨h1, h2⟩ := h
        subst h1; subst h2
        exact ⟨fun p hp => Poll.noConfusion hp, fun _ => ⟨f1, rfl⟩⟩

/-- C3 witness: with both poll functions instantiated at countdown futures,
the FirstDone equation is applied with its Ready hypothesis discharged at a
concrete input. -/
theorem c3_join_no_repoll_witness :
    Join.poll countdownPoll countdownPoll
        (Join.FirstDone () (some 0) : Join (Option Nat) (Option Nat) Unit Unit)
      = Join.poll (fun _ => none) countdownPoll (Join.FirstDone () (some 0))
  ∧ (((), ()) : Unit × Unit).1 = ()
  ∧ (Join.Done : Join (Option Nat) (Option Nat) Unit Unit) = Join.Done :=
  have h := c3_join_no_repoll countdownPoll (fun _ => none) countdownPoll
    (fun _ => none) () () (some 0) (some 0)
  have h3 := (h.2.2.1 (Poll.Ready ((), ())) Join.Done rfl).1 ((), ()) rfl
  ⟨h.1, h3.1, h3.2⟩

/-- C2: the claim says each pass of SingleThreadExecutor::wait polls only
futures that have not yet completed and removes entries as they complete.
The code removes nothing during the loop (the list is only cleared at the
end) and re-polls completed entries on the next pass: spawning two
countdown futures that need two and three polls leaves the pending list
`[some 0, some 1]`, and wait's second pass polls the future that completed
on the first pass again, panicking. -/
theorem c2_wait_repolls_completed_future :
    (SingleThreadExecutor.spawn countdownPoll ⟨[]⟩ (some 1)).bind
        (fun e => SingleThreadExecutor.spawn countdownPoll e (some 2))
      = some ⟨[some 0, some 1]⟩
  ∧ SingleThreadExecutor.waitOutcome countdownPoll 5 ⟨[some 0, some 1]⟩
      = ExecOutcome.panicked :=
  ⟨rfl, rfl⟩

/-- C7: once the worker is done (the completion flag reads true) a poll of
the thread-backed file-read future returns Ready carrying the read's
outcome inside the value: the file's contents as success for a present
path, a failure value for a missing path; and no poll of FileReader ever
panics — failure is never a failure of poll itself. -/
theorem c7_filereader_errors_in_value (fs : FileSystem) (st : FileReader)
    (h : st.thread = true) :
    FileReader.poll fs true st
      = some (Poll.Ready (readToString fs st.path), { st with thread := false })
  ∧ (∀ c, fs st.path = some c → readToString fs st.path = Except.ok c)
  ∧ (fs st.path = none →
      readToString fs st.path = Except.error "No such file or directory")
  ∧ (∀ flag st', FileReader.poll fs flag st' ≠ none) := by
  refine ⟨by simp [FileReader.poll, h], fun c hc => by simp [readToString, hc],
    fun hc => by simp [readToString, hc], fun flag st' => ?_⟩
  simp only [FileReader.poll]
  split
  · simp
  · split <;> simp

/-- C7 witness: a filesystem holding "f" with contents "hello"; with the
worker done, polling yields success with the exact contents, and a missing
path "g" yields the failure value. -/
theorem c7_filereader_errors_in_value_witness :
    FileReader.poll (fun p => if p = "f" then some "hello" else none) true
        ⟨"f", true, 1⟩
      = some (Poll.Ready (Except.ok "hello"), ⟨"f", false, 1⟩)
  ∧ readToString (fun p => if p = "f" then some "hello" else none) "g"
      = Except.error "No such file or directory" :=
  have h := c7_filereader_errors_in_value
    (fun p => if p = "f" then some "hello" else none) ⟨"f", true, 1⟩ rfl
  have h' := c7_filereader_errors_in_value
    (fun p => if p = "f" then some "hello" else none) ⟨"g", true, 1⟩ rfl
  ⟨by rw [h.1, h.2.1 "hello" rfl], h'.2.2.1 rfl⟩

/-- C9: the first poll of FileReader (no worker handle yet) spawns the
worker and returns NotReady for every flag value — even when the read has
already finished the flag is not consulted; and no later poll from a state
that still holds the handle ever spawns another worker (the ghost spawn
counter is unchanged). -/
theorem c9_first_poll_not_ready (fs : FileSystem) (p : String) :
    (∀ flag k, FileReader.poll fs flag ⟨p, false, k⟩
      = some (Poll.NotReady, ⟨p, true, k + 1⟩))
  ∧ FileReader.new p = (⟨p, false, 0⟩ : FileReader)
  ∧ (∀ flag st r st', st.thread = true →
      FileReader.poll fs flag st = some (r, st') → st'.spawns = st.spawns) := by
  refine ⟨fun flag k => by simp [FileReader.poll], rfl,
    fun flag st r st' ht h => ?_⟩
  cases flag <;> simp [FileReader.poll, ht] at h <;>
    obtain ⟨-, h2⟩ := h <;> subst h2 <;> rfl

/-- C9 witness: the theorem applied to a fresh reader (first poll with the
flag already true still returns NotReady and spawns) and to a
handle-holding state (the poll that observes completion spawns nothing). -/
theorem c9_first_poll_not_ready_witness :
    FileReader.poll (fun _ => some "x") true (⟨"a", false, 0⟩ : FileReader)
      = some (Poll.NotReady, ⟨"a", true, 1⟩)
  ∧ (⟨"a", false, 1⟩ : FileReader).spawns = (⟨"a", true, 1⟩ : FileReader).spawns :=
  have h := c9_first_poll_not_ready (fun _ => some "x") "a"
  ⟨h.1 true 0,
   h.2.2 true ⟨"a", true, 1⟩ (Poll.Ready (Except.ok "x")) ⟨"a", false, 1⟩ rfl rfl⟩

/-- C10: after the pool's wait has returned, every worker has exited and
dropped its clone of the shared receiver, so a later spawn panics on the
failed channel send rather than silently dropping the future; wait also
empties the pool's thread list, so a second wait appends no sentinels to
the queue. -/
theorem c10_spawn_after_wait_panics {σ : Type} (e : MultiThreadExecutor σ)
    (f : σ) (n : Nat) :
    MultiThreadExecutor.spawn
        (MultiThreadExecutor.wait (MultiThreadExecutor.new σ n)) f = none
  ∧ (MultiThreadExecutor.wait e).threads = 0
  ∧ (MultiThreadExecutor.wait (MultiThreadExecutor.wait e)).queue
      = (MultiThreadExecutor.wait e).queue := by
  refine ⟨?_, rfl, ?_⟩
  · simp [MultiThreadExecutor.new, MultiThreadExecutor.wait,
      MultiThreadExecutor.spawn]
  · simp [MultiThreadExecutor.wait]

/-- Helper for C8: a wait pass preserves the length of the pending list,
and the number of Ready polls it counted equals the number of completed
entries it leaves behind. -/
theorem waitPass_length_count {σ : Type} {pollF : PollFn σ Unit}
    (c : Contract pollF) :
    ∀ (futs futs' : List σ) (cnt : Nat),
      waitPass pollF futs = some (futs', cnt) →
      futs'.length = futs.length ∧ cnt = futs'.countP c.done := by
  intro futs
  induction futs with
  | nil =>
    intro futs' cnt h
    simp [waitPass] at h
    obtain ⟨h1, h2⟩ := h
    subst h1; subst h2
    simp
  | cons s rest ih =>
    intro futs' cnt h
    cases hp : pollF s with
    | none => simp [waitPass, hp] at h
    | some pr =>
      obtain ⟨p, s'⟩ := pr
      cases hw : waitPass pollF rest with
      | none => simp [waitPass, hp, hw] at h
      | some pr2 =>
        obtain ⟨rest', c0⟩ := pr2
        simp only [waitPass, hp, hw] at h
        obtain ⟨h1, h2⟩ := Prod.mk.injEq .. ▸ Option.some.injEq .. ▸ h
        obtain ⟨hlen, hcnt⟩ := ih rest' c0 hw
        subst h1
        cases p with
        | Ready x =>
          have hd := c.poll_ready s x s' hp
          simp [List.countP_cons, hd, hlen, hcnt, ← h2]
          omega
        | NotReady =>
          have hd := c.poll_notready s s' hp
          simp [List.countP_cons, hd, hlen, hcnt, ← h2]

/-- Helper for C8: a wait pass over a list containing an already-completed
future polls that future again and panics. -/
theorem waitPass_done_panics {σ : Type} {pollF : PollFn σ Unit}
    (c : Contract pollF) :
    ∀ futs : List σ, (∃ s ∈ futs, c.done s = true) →
      waitPass pollF futs = none := by
  intro futs
  induction futs with
  | nil => rintro ⟨s, hs, -⟩; simp at hs
  | cons s rest ih =>
    rintro ⟨t, ht, hd⟩
    rcases List.mem_cons.mp ht with h1 | h1
    · subst h1; simp [waitPass, c.poll_done t hd]
    · cases hp : pollF s with
      | none => simp [waitPass, hp]
      | some pr =>
        obtain ⟨p, s'⟩ := pr
        simp [waitPass, hp, ih ⟨t, h1, hd⟩]

/-- Helper for C8: with a completed entry present and the loop guard still
open, the wait loop cannot finish (the next pass panics, or the fuel runs
out). -/
theorem waitLoop_done_not_finished {σ : Type} {pollF : PollFn σ Unit}
    (c : Contract pollF) (fuel : Nat) (futs : List σ) (num n : Nat)
    (fin : List σ) (hd : ∃ s ∈ futs, c.done s = true) (hn : num < n) :
    waitLoop pollF fuel futs num n ≠ ExecOutcome.finished fin := by
  cases fuel with
  | zero => simp [waitLoop, hn]
  | succ fuel => simp [waitLoop, hn, waitPass_done_panics c futs hd]

/-- Helper for C8: if the wait loop of SingleThreadExecutor::wait, started
with a zero counter on a list with no completed entries, finishes, then
every entry it hands to clear() is completed. -/
theorem waitLoop_finished_all_done {σ : Type} {pollF : PollFn σ Unit}
    (c : Contract pollF) :
    ∀ (fuel : Nat) (futs fin : List σ), futs.countP c.done = 0 →
      waitLoop pollF fuel futs 0 futs.length = ExecOutcome.finished fin →
      ∀ s ∈ fin, c.done s = true := by
  intro fuel
  induction fuel with
  | zero =>
    intro futs fin h0 h
    by_cases hn : 0 < futs.length
    · simp [waitLoop, hn] at h
    · simp only [waitLoop, if_neg hn, ExecOutcome.finished.injEq] at h
      subst h
      intro s hs
      rw [List.length_eq_zero.mp (show futs.length = 0 by omega)] at hs
      simp at hs
  | succ fuel ih =>
    intro futs fin h0 h
    by_cases hn : 0 < futs.length
    · cases hw : waitPass pollF futs with
      | none => simp [waitLoop, hn, hw] at h
      | some pr =>
        obtain ⟨futs', cnt⟩ := pr
        simp only [waitLoop, if_pos hn, hw] at h
        obtain ⟨hlen, hcnt⟩ := waitPass_length_count c futs futs' cnt hw
        rcases Nat.eq_zero_or_pos cnt with hcz | hcz
        · subst hcz
          rw [← hlen] at h
          exact ih futs' fin (by omega) h
        · by_cases hc2 : 0 + cnt < futs.length
          · exact absurd h (waitLoop_done_not_finished c fuel futs'
              (0 + cnt) futs.length fin
              (List.countP_pos_iff.mp (by omega)) hc2)
          · cases fuel with
            | zero =>
              simp only [waitLoop, if_neg hc2, ExecOutcome.finished.injEq] at h
              subst h
              have hle : futs'.countP c.done ≤ futs'.length :=
                List.countP_le_length c.done
              have heq : futs'.countP c.done = futs'.length := by omega
              exact fun s hs => List.countP_eq_length.mp heq s hs
            | succ fuel2 =>
              simp only [waitLoop, if_neg hc2, ExecOutcome.finished.injEq] at h
              subst h
              have hle : futs'.countP c.done ≤ futs'.length :=
                List.countP_le_length c.done
              have heq : futs'.countP c.done = futs'.length := by omega
              exact fun s hs => List.countP_eq_length.mp heq s hs
    · simp only [waitLoop, if_neg hn, ExecOutcome.finished.injEq] at h
      subst h
      intro s hs
      rw [List.length_eq_zero.mp (show futs.length = 0 by omega)] at hs
      simp at hs

/-- Helper for C8: SingleThreadExecutor::spawn only ever retains futures
that are not yet completed (the pushed state comes from a NotReady poll). -/
theorem spawn_preserves_not_done {σ : Type} {pollF : PollFn σ Unit}
    (c : Contract pollF) (e e' : SingleThreadExecutor σ) (f : σ)
    (he : ∀ s ∈ e.futures, c.done s = false)
    (h : SingleThreadExecutor.spawn pollF e f = some e') :
    ∀ s ∈ e'.futures, c.done s = false := by
  obtain ⟨fs'⟩ := e'
  cases hp : pollF f with
  | none => simp [SingleThreadExecutor.spawn, hp] at h
  | some pr =>
    obtain ⟨p, f'⟩ := pr
    cases p with
    | Ready x =>
      simp only [SingleThreadExecutor.spawn, hp, Option.some.injEq] at h
      subst h
      exact he
    | NotReady =>
      simp only [SingleThreadExecutor.spawn, hp, Option.some.injEq,
        SingleThreadExecutor.mk.injEq] at h
      intro s hs
      rw [← h] at hs
      rcases List.mem_append.mp hs with h1 | h1
      · exact he s h1
      · have : s = f' := by simpa using h1
        subst this
        exact c.poll_notready f s hp

/-- Helper for C8: spawning a list of futures one by one preserves "no
retained future is completed". -/
theorem spawnAll_preserves_not_done {σ : Type} {pollF : PollFn σ Unit}
    (c : Contract pollF) :
    ∀ (tasks : List σ) (e e' : SingleThreadExecutor σ),
      (∀ s ∈ e.futures, c.done s = false) →
      spawnAll pollF e tasks = some e' →
      ∀ s ∈ e'.futures, c.done s = false := by
  intro tasks
  induction tasks with
  | nil =>
    intro e e' he h
    simp only [spawnAll, Option.some.injEq] at h
    subst h
    exact he
  | cons t ts ih =>
    intro e e' he h
    cases hsp : SingleThreadExecutor.spawn pollF e t with
    | none => simp [spawnAll, hsp] at h
    | some e0 =>
      simp only [spawnAll, hsp] at h
      exact ih e0 e' (spawn_preserves_not_done c e e0 t he hsp) h

/-- Helper for C8: a worker that dequeues the futures `tasks` followed by
the shutdown sentinel spawns exactly those futures on its local executor,
drains it via the local wait, and then terminates, never touching the
messages after its sentinel. -/
theorem workerLoop_sentinel {σ : Type} (pollF : PollFn σ Unit) (fuel : Nat) :
    ∀ (tasks : List σ) (l : SingleThreadExecutor σ) (rest : List (Option σ)),
      workerLoop pollF fuel l (tasks.map some ++ none :: rest)
        = match spawnAll pollF l tasks with
          | none => WorkerOutcome.panicked
          | some l' =>
            match SingleThreadExecutor.waitOutcome pollF fuel l' with
            | ExecOutcome.panicked => WorkerOutcome.panicked
            | ExecOutcome.timeout => WorkerOutcome.timeout
            | ExecOutcome.finished fin => WorkerOutcome.terminated fin := by
  intro tasks
  induction tasks with
  | nil => intro l rest; rfl
  | cons t ts ih =>
    intro l rest
    simp only [List.map_cons, List.cons_append, workerLoop]
    cases hsp : SingleThreadExecutor.spawn pollF l t with
    | none => simp [spawnAll, hsp]
    | some l0 =>
      simp only [spawnAll, hsp]
      exact ih l0 rest

/-- C8: the pool's wait appends exactly one shutdown sentinel per worker
thread to the shared queue and empties the thread list (joining every
worker); a pool freshly built with `n` workers therefore sends exactly `n`
sentinels.  Each worker, having dequeued some futures and then its
sentinel, spawns those futures on its private single-thread executor,
drains it via that executor's wait, and terminates; and whenever the
worker terminates (so the pool's wait, which joins it, can return), every
future retained by its local executor had completed. -/
theorem c8_pool_shutdown {σ : Type} (pollF : PollFn σ Unit)
    (c : Contract pollF) (e : MultiThreadExecutor σ) (n fuel : Nat)
    (tasks : List σ) (rest : List (Option σ)) (l : SingleThreadExecutor σ)
    (hl : ∀ s ∈ l.futures, c.done s = false) :
    ((MultiThreadExecutor.wait e).queue = e.queue ++ List.replicate e.threads none
      ∧ (MultiThreadExecutor.wait e).threads = 0
      ∧ (MultiThreadExecutor.wait (MultiThreadExecutor.new σ n)).queue
          = List.replicate n none)
  ∧ (workerLoop pollF fuel l (tasks.map some ++ none :: rest)
      = match spawnAll pollF l tasks with
        | none => WorkerOutcome.panicked
        | some l' =>
          match SingleThreadExecutor.waitOutcome pollF fuel l' with
          | ExecOutcome.panicked => WorkerOutcome.panicked
          | ExecOutcome.timeout => WorkerOutcome.timeout
          | ExecOutcome.finished fin => WorkerOutcome.terminated fin)
  ∧ (∀ fin, workerLoop pollF fuel l (tasks.map some ++ none :: rest)
        = WorkerOutcome.terminated fin → ∀ s ∈ fin, c.done s = true) := by
  refine ⟨⟨rfl, rfl, by simp [MultiThreadExecutor.new, MultiThreadExecutor.wait]⟩,
    workerLoop_sentinel pollF fuel tasks l rest, ?_⟩
  intro fin hterm
  rw [workerLoop_sentinel pollF fuel tasks l rest] at hterm
  cases hsp : spawnAll pollF l tasks with
  | none => simp only [hsp] at hterm; cases hterm
  | some l' =>
    simp only [hsp] at hterm
    cases hw : SingleThreadExecutor.waitOutcome pollF fuel l' with
    | panicked => simp only [hw] at hterm; cases hterm
    | timeout => simp only [hw] at hterm; cases hterm
    | finished fin' =>
      simp only [hw] at hterm
      have hfin : fin' = fin := by injection hterm
      subst hfin
      have hnd : ∀ s ∈ l'.futures, c.done s = false :=
        spawnAll_preserves_not_done c tasks l l' hl hsp
      have h0 : l'.futures.countP c.done = 0 :=
        List.countP_eq_zero.mpr (fun a ha => by simp [hnd a ha])
      have hw' : waitLoop pollF fuel l'.futures 0 l'.futures.length
          = ExecOutcome.finished fin' := hw
      exact waitLoop_finished_all_done c fuel l'.futures fin' h0 hw'

/-- C8 witness: a pool of two workers sends two sentinels; a worker that
dequeues two two-poll countdown futures and then the sentinel terminates,
and both futures it drained had completed. -/
theorem c8_pool_shutdown_witness :
    (MultiThreadExecutor.wait (MultiThreadExecutor.new (Option Nat) 2)).queue
      = [none, none]
  ∧ workerLoop countdownPoll 5 ⟨[]⟩ [some (some 1), some (some 1), none]
      = WorkerOutcome.terminated [none, none]
  ∧ countdownContract.done none = true := by
  have h := c8_pool_shutdown countdownPoll countdownContract
    (MultiThreadExecutor.new (Option Nat) 2) 2 5 [some 1, some 1] [] ⟨[]⟩
    (fun s hs => absurd hs (List.not_mem_nil s))
  exact ⟨by simpa using h.1.2.2, by rfl,
    h.2.2 [none, none] (by rfl) none (by simp)⟩

end Assign7
